import Mathlib

/-!
Verification of the SeismicMesh sizing-field construction pipeline.

The development shallow-embeds `SeismicMesh/mesh_size_function.py` (class
`MeshSizeFunction`: constructor validation, the `build()` pipeline, the
signed-distance closure) and `SeismicMesh/gradient_limiter.py` together with
the external `FastHJ.limgrad` kernel (modelled from the specification, see
the doc comment on `limgrad`).  Real numbers of the Python code are embedded
as exact rationals `ℚ`; 2-D `numpy` arrays are embedded as flat lists in
column-major (Fortran) order, the order the code itself uses when it flattens
a field (`fun.flatten("F")`), with cell `(i, j)` of an `nz × nx` grid stored
at flat index `i + nz * j`.  A secondary embedding with IEEE special values
(`PyFloat`) is used where a claim turns on finiteness of float values.
-/

/-- Errors a Python method of this module can raise: the `assert` statements
in the setters and in `build()` raise `AssertionError`; resolving a missing
attribute (`self.__hj`, `self.drectangle`) raises `AttributeError`. -/
inductive PyError where
  | assertionError
  | attributeError
deriving DecidableEq, Repr

/-- A Python value passed for the `segy` argument: the setter checks
`isinstance(value, str)`. -/
inductive PyValue where
  | str (s : String)
  | num (q : ℚ)
  | pynone
  | other
deriving DecidableEq, Repr

/-- `isinstance(value, str)` for a `PyValue`. -/
def PyValue.isStr : PyValue → Bool
  | .str _ => true
  | _ => false

/-- The attribute names bound on class `MeshSizeFunction` by its class body.
Identifiers with two leading underscores inside a `class` body are name
mangled by Python, so `def __drectangle` binds `_MeshSizeFunction__drectangle`
while `def hj` binds plain `hj`.  The property setters additionally bind the
property names themselves (`bbox`, `hmin`, ...). -/
def msfAttrs : List String :=
  ["build", "plot", "GetDomainMatrices", "hj",
   "_MeshSizeFunction__drectangle", "_MeshSizeFunction__ReadVelocityModel",
   "_MeshSizeFunction__CreateDomainVectors", "_MeshSizeFunction__CreateDomainMatrices",
   "fh", "fd", "bbox", "hmin", "vp", "nz", "nx", "segy", "wl", "freq",
   "hmax", "dt", "cr_max", "grade"]

/-- The data captured by the interpolant closure `self.fh`: the two domain
coordinate vectors handed to `RegularGridInterpolator` and the final sizing
field (the interpolator itself is an external collaborator). -/
structure FHData where
  zvec : List ℚ
  xvec : List ℚ
  hh : List ℚ
deriving DecidableEq, Repr

/-- The data captured by the signed-distance closure `self.fd`:
`_bbox[0] .. _bbox[3]`. -/
structure FDData where
  x1 : ℚ
  x2 : ℚ
  y1 : ℚ
  y2 : ℚ
deriving DecidableEq, Repr

/-- The state of a `MeshSizeFunction` object.  `hmax = none` models the
default `np.inf` (the code only applies the max clamp under
`if _hmax < np.inf`); the fields `vp`, `nz`, `nx`, `fh`, `fd` are `None`
after `__init__` and populated by `build()`. -/
structure MSF where
  bbox : List ℚ
  hmin : ℚ
  segy : String
  wl : ℚ
  freq : ℚ
  hmax : Option ℚ
  dt : ℚ
  cr_max : ℚ
  grade : ℚ
  vp : Option (List ℚ)
  nz : Option ℕ
  nx : Option ℕ
  fh : Option FHData
  fd : Option FDData
deriving DecidableEq, Repr

/-- `MeshSizeFunction.__init__`: assigns each argument through its property
setter.  The `bbox` setter asserts `len(value) >= 4 and len(value) <= 6`, the
`hmin` setter asserts `value > 0.0`, the `segy` setter asserts
`isinstance(value, str)`; the remaining setters perform no checks, and
`nz`, `nx`, `fh`, `fd` are initialised to `None` (`vp` stays unset). -/
def mkMeshSizeFunction (bbox : List ℚ) (hmin : ℚ) (segy : PyValue)
    (wl freq : ℚ) (hmax : Option ℚ) (dt cr_max grade : ℚ) :
    Except PyError MSF :=
  if 4 ≤ bbox.length ∧ bbox.length ≤ 6 then
    if 0 < hmin then
      match segy with
      | .str s =>
          .ok ⟨bbox, hmin, s, wl, freq, hmax, dt, cr_max, grade,
               none, none, none, none, none⟩
      | _ => .error .assertionError
    else .error .assertionError
  else .error .assertionError

/-- Python `max(_bbox)` over a nonempty list. -/
def listMax : List ℚ → ℚ
  | [] => 0
  | a :: t => t.foldl max a

/-- Python `min(_bbox)` over a nonempty list. -/
def listMin : List ℚ → ℚ
  | [] => 0
  | a :: t => t.foldl min a

/-- `np.linspace(a, b, n)`: `n` evenly spaced samples from `a` to `b`
inclusive. -/
def linspace (a b : ℚ) (n : ℕ) : List ℚ :=
  match n with
  | 0 => []
  | 1 => [a]
  | m + 2 => (List.range (m + 2)).map (fun i => a + (b - a) * i / (m + 1))

/-- `__CreateDomainVectors`: `xvec = np.linspace(0, width, nx)`,
`zvec = np.linspace(depth, 0, nz)` with `width = max(bbox)`,
`depth = min(bbox)`. -/
def createDomainVectors (bbox : List ℚ) (nz nx : ℕ) : List ℚ × List ℚ :=
  (linspace (listMin bbox) 0 nz, linspace 0 (listMax bbox) nx)

/-- `hh_m = np.zeros(shape=(_nz, _nx)) + _hmin`. -/
def initField (nz nx : ℕ) (hmin : ℚ) : List ℚ :=
  List.replicate (nz * nx) hmin

/-- `if _wl > 0: hh_m = _vp / (_freq * _wl)` (the whole array is replaced by
the wavelength estimate; otherwise the initial field is kept). -/
def wavelengthStage (wl freq : ℚ) (vp hh : List ℚ) : List ℚ :=
  if 0 < wl then vp.map (fun v => v / (freq * wl)) else hh

/-- `hh_m = np.where(hh_m < _hmin, _hmin, hh_m)`. -/
def enforceMinStage (hmin : ℚ) (hh : List ℚ) : List ℚ :=
  hh.map (fun x => if x < hmin then hmin else x)

/-- `if _hmax < np.inf: hh_m = np.where(hh_m > _hmax, _hmax, hh_m)`. -/
def enforceMaxStage (hmax : Option ℚ) (hh : List ℚ) : List ℚ :=
  match hmax with
  | some m => hh.map (fun x => if m < x then m else x)
  | none => hh

/-- `if _dt > 0: cr_old = (_vp*_dt)/hh_m; dxn = (_vp*_dt)/_cr_max;
hh_m = np.where(cr_old > _cr_max, dxn, hh_m)`. -/
def cflStage (dt cr_max : ℚ) (vp hh : List ℚ) : List ℚ :=
  if 0 < dt then
    List.zipWith (fun v x => if cr_max < v * dt / x then v * dt / cr_max else x) vp hh
  else hh

/-- `__drectangle(p, x1, x2, y1, y2)`: signed distance for the rectangle,
`-min(min(min(-y1+p[:,1], y2-p[:,1]), -x1+p[:,0]), x2-p[:,0])`. -/
def drectangle (p : ℚ × ℚ) (x1 x2 y1 y2 : ℚ) : ℚ :=
  -(min (min (min (-y1 + p.2) (y2 - p.2)) (-x1 + p.1)) (x2 - p.1))

/-- Calling the closure `self.fd = lambda p: self.drectangle(p, ...)`: the
body first resolves attribute `drectangle` on the object; class
`MeshSizeFunction` binds no such attribute (the method was declared as
`__drectangle` and therefore lives under the mangled name
`_MeshSizeFunction__drectangle`), so the call raises `AttributeError`. -/
def callFd (d : FDData) (p : ℚ × ℚ) : Except PyError ℚ :=
  if "drectangle" ∈ msfAttrs then .ok (drectangle p d.x1 d.x2 d.y1 d.y2)
  else .error .attributeError

/-! ### The gradient limiter

`FastHJ.limgrad` is a compiled C++ extension of the repository that is not
under `src/`; only its Python wrappers are (`gradient_limiter.hj` and
`MeshSizeFunction.hj` flatten the field in Fortran order, call
`FastHJ.limgrad([nz, nx, 1], elen, grade, imax, ffun_list)` and reshape).
It is therefore modelled from the specification below. -/

/-- Flat column-major index of cell `(i, j)` on an `nz × nx` grid. -/
def idx (nz i j : ℕ) : ℕ := i + nz * j

/-- The in-bounds 4-neighbours (up/down/left/right) of cell `(i, j)`. -/
def nbrs (nz nx i j : ℕ) : List (ℕ × ℕ) :=
  ((if i + 1 < nz then [(i + 1, j)] else []) ++
   (if 0 < i then [(i - 1, j)] else [])) ++
  ((if j + 1 < nx then [(i, j + 1)] else []) ++
   (if 0 < j then [(i, j - 1)] else []))

/-- Modelled from the spec: one clamp of the sweep,
`h[neighbor] = min(h[neighbor], h[cell] + g·Δ)`, for cell at flat index `k`
and neighbour at flat index `n`, with `gd = g·Δ` the allowed increase
between adjacent cells. -/
def gdStep (gd : ℚ) (k : ℕ) (a : List ℚ) (n : ℕ) : List ℚ :=
  a.set n (min (a.getD n 0) (a.getD k 0 + gd))

/-- Modelled from the spec: visiting one cell clamps each of its in-bounds
4-neighbours in place. -/
def sweepCell (nz nx : ℕ) (gd : ℚ) (a : List ℚ) (c : ℕ × ℕ) : List ℚ :=
  (nbrs nz nx c.1 c.2).foldl (fun b q => gdStep gd (idx nz c.1 c.2) b (idx nz q.1 q.2)) a

/-- All cells of the grid, row index inner, column index outer is irrelevant
to the fixed point; this enumeration visits `(i, j)` for `i < nz`, `j < nx`. -/
def cells (nz nx : ℕ) : List (ℕ × ℕ) :=
  (List.range nz).flatMap (fun i => (List.range nx).map (fun j => (i, j)))

/-- Modelled from the spec: one full Gauss–Seidel pass over the grid. -/
def sweepOnce (nz nx : ℕ) (gd : ℚ) (l : List ℚ) : List ℚ :=
  (cells nz nx).foldl (sweepCell nz nx gd) l

/-- Modelled from the spec (§4.2, missing compiled kernel `FastHJ.limgrad`):
repeat the grid pass up to `imax` times, terminating early when a pass
produces no change (fixed point); non-convergence after `imax` passes is not
fatal and returns the best-effort field. -/
def limgrad (nz nx : ℕ) (elen grade : ℚ) (imax : ℕ) (l : List ℚ) : List ℚ :=
  match imax with
  | 0 => l
  | m + 1 =>
    let l2 := sweepOnce nz nx (grade * elen) l
    if l2 = l then l else limgrad nz nx elen grade m l2

/-- The gradation stage of `build()`:
`if _grade > 0: hh_m = self.__hj(hh_m, width/_nx, _grade, 10000)`.
The reference `self.__hj` is name mangled to `self._MeshSizeFunction__hj`;
the wrapper method was declared under the plain name `hj`, so the attribute
lookup fails and the stage raises `AttributeError`. -/
def gradeStage (grade : ℚ) (nz nx : ℕ) (width : ℚ) (hh : List ℚ) :
    Except PyError (List ℚ) :=
  if 0 < grade then
    if "_MeshSizeFunction__hj" ∈ msfAttrs then
      .ok (limgrad nz nx (width / nx) grade 10000 hh)
    else .error .attributeError
  else .ok hh

/-- The field computed by `build()` before the gradation and CFL stages:
initialisation, wavelength criterion, min clamp, max clamp, in this order. -/
def preGradField (s : MSF) (vp : List ℚ) (nz nx : ℕ) : List ℚ :=
  enforceMaxStage s.hmax
    (enforceMinStage s.hmin
      (wavelengthStage s.wl s.freq vp (initField nz nx s.hmin)))

/-- The field after the CFL stage (the gradation stage, when it returns at
all, returns its input unchanged, since `grade > 0` raises). -/
def finalField (s : MSF) (vp : List ℚ) (nz nx : ℕ) : List ℚ :=
  cflStage s.dt s.cr_max vp (preGradField s vp nz nx)

/-- The object state returned by a successful `build()`: the receiver with
`vp`, `nz`, `nx` assigned and the two closures `fh`, `fd` installed. -/
def buildOkResult (s : MSF) (vp : List ℚ) (nz nx : ℕ) : MSF :=
  { s with
    vp := some vp, nz := some nz, nx := some nx,
    fh := some ⟨(createDomainVectors s.bbox nz nx).1,
                (createDomainVectors s.bbox nz nx).2,
                finalField s vp nz nx⟩,
    fd := some ⟨s.bbox.getD 0 0, s.bbox.getD 1 0, s.bbox.getD 2 0, s.bbox.getD 3 0⟩ }

/-- `MeshSizeFunction.build()`.  Reading the velocity model is an external
collaborator (`segyio`), so its result `(vp, nz, nx)` is a parameter.  The
stages run in source order: initialise, wavelength, min clamp, max clamp,
gradation (raising `AttributeError` whenever `grade > 0`), CFL adjustment,
then `assert np.all(hh_m > 0.0)`; on success the receiver is mutated and
returned. -/
def buildM (s : MSF) (vp : List ℚ) (nz nx : ℕ) : Except PyError MSF :=
  match gradeStage s.grade nz nx (listMax s.bbox) (preGradField s vp nz nx) with
  | .error e => .error e
  | .ok hh4 =>
    let hh5 := cflStage s.dt s.cr_max vp hh4
    if hh5.all (fun x => decide (0 < x)) then .ok (buildOkResult s vp nz nx)
    else .error .assertionError

/-- The CFL adjustment at a cell is triggered when `v·dt/h > cr_max`
(`dt > 0` being the stage guard). -/
def cflTriggered (s : MSF) (vp : List ℚ) (nz nx : ℕ) (k : ℕ) : Prop :=
  0 < s.dt ∧ s.cr_max < vp.getD k 0 * s.dt / (preGradField s vp nz nx).getD k 0

/-! ### Claim-side predicates for the gradient limiter -/

/-- `a` is pointwise below `b`: same length and no entry larger. -/
def ptwiseLe (a b : List ℚ) : Prop :=
  a.length = b.length ∧ ∀ k : ℕ, a.getD k 0 ≤ b.getD k 0

/-- Cells `p` and `q` are grid-adjacent: `p` in bounds and `q` one of its
in-bounds 4-neighbours. -/
def Adj (nz nx : ℕ) (p q : ℕ × ℕ) : Prop :=
  p.1 < nz ∧ p.2 < nx ∧ q ∈ nbrs nz nx p.1 p.2

/-- The one-sided gradient bound: along every ordered adjacent pair the value
grows by at most `gd`. -/
def GradBounded (nz nx : ℕ) (gd : ℚ) (l : List ℚ) : Prop :=
  ∀ p q, Adj nz nx p q → l.getD (idx nz q.1 q.2) 0 ≤ l.getD (idx nz p.1 p.2) 0 + gd

/-! ### IEEE-special-value embedding for the finiteness claim

The pipeline values are `numpy` float64; with finite configuration values the
only special values that can arise are through division (`vp/(freq*wl)` with
`freq*wl = 0` yields `inf` or `nan`).  `PyFloat` carries exactly the special
values needed to examine the final `assert np.all(hh_m > 0.0)`. -/

/-- A float64 value: a finite rational, `inf`, `-inf`, or `nan`. -/
inductive PyFloat where
  | fin (q : ℚ)
  | inf
  | ninf
  | nan
deriving DecidableEq, Repr

/-- IEEE `<` on `PyFloat`: any comparison with `nan` is false. -/
def pyLt : PyFloat → PyFloat → Bool
  | .nan, _ => false
  | _, .nan => false
  | .ninf, .ninf => false
  | .ninf, _ => true
  | _, .ninf => false
  | .inf, _ => false
  | .fin _, .inf => true
  | .fin a, .fin b => decide (a < b)

/-- IEEE division on `PyFloat` (as `numpy` performs it elementwise: division
by zero yields a signed infinity or `nan`, never an exception). -/
def pyDiv : PyFloat → PyFloat → PyFloat
  | .nan, _ => .nan
  | _, .nan => .nan
  | .inf, .inf => .nan
  | .inf, .ninf => .nan
  | .ninf, .inf => .nan
  | .ninf, .ninf => .nan
  | .inf, .fin b => if b < 0 then .ninf else .inf
  | .ninf, .fin b => if b < 0 then .inf else .ninf
  | .fin _, .inf => .fin 0
  | .fin _, .ninf => .fin 0
  | .fin a, .fin b =>
      if b = 0 then (if 0 < a then .inf else if a < 0 then .ninf else .nan)
      else .fin (a / b)

/-- A `PyFloat` is finite when it is a rational. -/
def PyFloat.isFinite : PyFloat → Bool
  | .fin _ => true
  | _ => false

/-- The `build()` field pipeline through the CFL stage with float64 value
semantics: same stages as `finalField`, with every elementwise division
performed by `pyDiv` and every elementwise comparison by `pyLt`. -/
def finalFieldF (hmin wl freq : ℚ) (hmax : PyFloat) (dt cr_max : ℚ)
    (vp : List ℚ) (nz nx : ℕ) : List PyFloat :=
  let hh0 := List.replicate (nz * nx) (PyFloat.fin hmin)
  let hh1 := if 0 < wl then vp.map (fun v => pyDiv (.fin v) (.fin (freq * wl))) else hh0
  let hh2 := hh1.map (fun x => if pyLt x (.fin hmin) then .fin hmin else x)
  let hh3 := if pyLt hmax .inf then hh2.map (fun x => if pyLt hmax x then hmax else x) else hh2
  if 0 < dt then
    List.zipWith (fun v x =>
      if pyLt (.fin cr_max) (pyDiv (.fin (v * dt)) x) then pyDiv (.fin (v * dt)) (.fin cr_max)
      else x) vp hh3
  else hh3

/-- `build()` with float64 value semantics (velocity model given, as for
`buildM`); returns the final field on success. -/
def buildF (hmin wl freq : ℚ) (hmax : PyFloat) (dt cr_max grade : ℚ)
    (vp : List ℚ) (nz nx : ℕ) : Except PyError (List PyFloat) :=
  if 0 < grade then
    if "_MeshSizeFunction__hj" ∈ msfAttrs then
      .error .attributeError
    else .error .attributeError
  else
    let hh := finalFieldF hmin wl freq hmax dt cr_max vp nz nx
    if hh.all (fun x => pyLt (.fin 0) x) then .ok hh else .error .assertionError

/-- The per-cell clamp described by the claim for the pre-gradation field:
raise a raw value below `hmin` to exactly `hmin`, then, only when `hmax` is
finite, lower a value above `hmax` to exactly `hmax`. -/
def clampSpec (hmin : ℚ) (hmax : Option ℚ) (raw : ℚ) : ℚ :=
  match hmax with
  | some m =>
      if m < (if raw < hmin then hmin else raw) then m
      else (if raw < hmin then hmin else raw)
  | none => if raw < hmin then hmin else raw

/-! ### List access helpers -/

lemma getD_map_lt (f : ℚ → ℚ) (l : List ℚ) (i : ℕ) (h : i < l.length) :
    (l.map f).getD i 0 = f (l.getD i 0) := by
  rw [List.getD_eq_getElem?_getD, List.getD_eq_getElem?_getD, List.getElem?_map,
    List.getElem?_eq_getElem h]
  rfl

lemma getD_replicate_lt (n i : ℕ) (a : ℚ) (h : i < n) :
    (List.replicate n a).getD i 0 = a := by
  rw [List.getD_eq_getElem?_getD, List.getElem?_replicate, if_pos h]
  rfl

lemma getD_beyond (l : List ℚ) (i : ℕ) (h : l.length ≤ i) : l.getD i 0 = 0 := by
  rw [List.getD_eq_getElem?_getD, List.getElem?_eq_none (by omega)]
  rfl

lemma getD_set_self (l : List ℚ) (i : ℕ) (a : ℚ) (h : i < l.length) :
    (l.set i a).getD i 0 = a := by
  rw [List.getD_eq_getElem?_getD, List.getElem?_set_self h]
  rfl

lemma getD_set_ne (l : List ℚ) (i j : ℕ) (a : ℚ) (h : i ≠ j) :
    (l.set i a).getD j 0 = l.getD j 0 := by
  rw [List.getD_eq_getElem?_getD, List.getD_eq_getElem?_getD, List.getElem?_set_ne h]

lemma getD_zipWith (f : ℚ → ℚ → ℚ) (a b : List ℚ) (i : ℕ)
    (h1 : i < a.length) (h2 : i < b.length) :
    (List.zipWith f a b).getD i 0 = f (a.getD i 0) (b.getD i 0) := by
  have hl : i < (List.zipWith f a b).length := by
    rw [List.length_zipWith]; omega
  rw [List.getD_eq_getElem?_getD, List.getElem?_eq_getElem hl, List.getElem_zipWith]
  rw [List.getD_eq_getElem?_getD, List.getElem?_eq_getElem h1]
  rw [List.getD_eq_getElem?_getD, List.getElem?_eq_getElem h2]
  rfl

/-! ### The pointwise order and generic fold lemmas -/

lemma ptwiseLe_refl (a : List ℚ) : ptwiseLe a a := ⟨rfl, fun _ => le_refl _⟩

lemma ptwiseLe_trans {a b c : List ℚ} (h1 : ptwiseLe a b) (h2 : ptwiseLe b c) :
    ptwiseLe a c :=
  ⟨h1.1.trans h2.1, fun k => (h1.2 k).trans (h2.2 k)⟩

lemma ptwiseLe_antisymm {a b : List ℚ} (h1 : ptwiseLe a b) (h2 : ptwiseLe b a) :
    a = b := by
  have hlen := h1.1
  apply List.ext_getElem?
  intro n
  by_cases hn : n < a.length
  · have hn2 : n < b.length := by omega
    rw [List.getElem?_eq_getElem hn, List.getElem?_eq_getElem hn2]
    have e1 := h1.2 n
    have e2 := h2.2 n
    rw [List.getD_eq_getElem?_getD, List.getD_eq_getElem?_getD,
      List.getElem?_eq_getElem hn, List.getElem?_eq_getElem hn2] at e1 e2
    simp only [Option.getD_some] at e1 e2
    exact congrArg some (le_antisymm e1 e2)
  · rw [List.getElem?_eq_none (by omega), List.getElem?_eq_none (by omega)]

lemma foldl_ptwiseLe {β : Type} (f : List ℚ → β → List ℚ)
    (hdec : ∀ a b, ptwiseLe (f a b) a) :
    ∀ (ns : List β) (a : List ℚ), ptwiseLe (ns.foldl f a) a := by
  intro ns
  induction ns with
  | nil => intro a; exact ptwiseLe_refl a
  | cons n t ih =>
    intro a
    exact ptwiseLe_trans (ih (f a n)) (hdec a n)

lemma foldl_eq_self {β : Type} (f : List ℚ → β → List ℚ)
    (hdec : ∀ a b, ptwiseLe (f a b) a) :
    ∀ (ns : List β) (a : List ℚ), ns.foldl f a = a → ∀ b ∈ ns, f a b = a := by
  intro ns
  induction ns with
  | nil => intro a _ b hb; cases hb
  | cons n t ih =>
    intro a hfix b hb
    have h1 : ptwiseLe (t.foldl f (f a n)) (f a n) := foldl_ptwiseLe f hdec t (f a n)
    rw [List.foldl_cons] at hfix
    rw [hfix] at h1
    have hstep : f a n = a := ptwiseLe_antisymm (hdec a n) h1
    rcases List.mem_cons.mp hb with hb | hb
    · rw [hb]; exact hstep
    · apply ih a _ b hb
      rw [hstep] at hfix
      exact hfix

lemma foldl_preserve {β : Type} (P : List ℚ → Prop) (f : List ℚ → β → List ℚ)
    (ns : List β) (h : ∀ a b, b ∈ ns → P a → P (f a b)) :
    ∀ a, P a → P (ns.foldl f a) := by
  induction ns with
  | nil => intro a ha; exact ha
  | cons n t ih =>
    intro a ha
    rw [List.foldl_cons]
    exact ih (fun a b hb => h a b (List.mem_cons_of_mem n hb)) (f a n)
      (h a n (List.mem_cons_self n t) ha)

/-! ### Structural lemmas about the limiter sweep -/

lemma mem_nbrs {nz nx i j : ℕ} {q : ℕ × ℕ} :
    q ∈ nbrs nz nx i j ↔
      (q = (i + 1, j) ∧ i + 1 < nz) ∨ (q = (i - 1, j) ∧ 0 < i) ∨
      (q = (i, j + 1) ∧ j + 1 < nx) ∨ (q = (i, j - 1) ∧ 0 < j) := by
  unfold nbrs
  by_cases h1 : i + 1 < nz <;> by_cases h2 : 0 < i <;>
    by_cases h3 : j + 1 < nx <;> by_cases h4 : 0 < j <;>
      simp [h1, h2, h3, h4]

lemma adj_bounds {nz nx : ℕ} {p q : ℕ × ℕ} (h : Adj nz nx p q) :
    q.1 < nz ∧ q.2 < nx := by
  obtain ⟨hp1, hp2, hq⟩ := h
  rcases mem_nbrs.mp hq with ⟨rfl, h⟩ | ⟨rfl, h⟩ | ⟨rfl, h⟩ | ⟨rfl, h⟩ <;>
    exact ⟨by omega, by omega⟩

lemma adj_symm {nz nx : ℕ} {p q : ℕ × ℕ} (h : Adj nz nx p q) : Adj nz nx q p := by
  obtain ⟨hb1, hb2⟩ := adj_bounds h
  obtain ⟨hp1, hp2, hq⟩ := h
  refine ⟨hb1, hb2, ?_⟩
  rcases mem_nbrs.mp hq with ⟨rfl, h⟩ | ⟨rfl, h⟩ | ⟨rfl, h⟩ | ⟨rfl, h⟩
  · exact mem_nbrs.mpr (Or.inr (Or.inl ⟨by simp, by omega⟩))
  · exact mem_nbrs.mpr (Or.inl ⟨by simp [Prod.ext_iff]; omega, by omega⟩)
  · exact mem_nbrs.mpr (Or.inr (Or.inr (Or.inr ⟨by simp, by omega⟩)))
  · exact mem_nbrs.mpr (Or.inr (Or.inr (Or.inl ⟨by simp [Prod.ext_iff]; omega, by omega⟩)))

lemma mem_cells_iff {nz nx : ℕ} {p : ℕ × ℕ} :
    p ∈ cells nz nx ↔ p.1 < nz ∧ p.2 < nx := by
  unfold cells
  simp only [List.mem_flatMap, List.mem_map, List.mem_range]
  constructor
  · rintro ⟨i, hi, j, hj, rfl⟩
    exact ⟨hi, hj⟩
  · rintro ⟨h1, h2⟩
    exact ⟨p.1, h1, p.2, h2, rfl⟩

lemma idx_lt {nz nx i j : ℕ} (h1 : i < nz) (h2 : j < nx) : idx nz i j < nz * nx := by
  have h3 : nz * (j + 1) ≤ nz * nx := Nat.mul_le_mul_left nz h2
  have h4 : nz * (j + 1) = nz * j + nz := by ring
  unfold idx
  omega

lemma gdStep_ptwiseLe (gd : ℚ) (k n : ℕ) (a : List ℚ) :
    ptwiseLe (gdStep gd k a n) a := by
  constructor
  · simp [gdStep]
  · intro m
    by_cases hm : n = m
    · subst hm
      by_cases hn : n < a.length
      · rw [gdStep, getD_set_self _ _ _ hn]
        exact min_le_left _ _
      · rw [gdStep, List.set_eq_of_length_le (by omega)]
    · rw [gdStep, getD_set_ne _ _ _ _ hm]

lemma sweepCell_ptwiseLe (nz nx : ℕ) (gd : ℚ) (a : List ℚ) (c : ℕ × ℕ) :
    ptwiseLe (sweepCell nz nx gd a c) a :=
  @foldl_ptwiseLe (ℕ × ℕ) (fun b q => gdStep gd (idx nz c.1 c.2) b (idx nz q.1 q.2))
    (fun b q => gdStep_ptwiseLe gd (idx nz c.1 c.2) (idx nz q.1 q.2) b)
    (nbrs nz nx c.1 c.2) a

lemma sweepOnce_ptwiseLe (nz nx : ℕ) (gd : ℚ) (l : List ℚ) :
    ptwiseLe (sweepOnce nz nx gd l) l :=
  @foldl_ptwiseLe (ℕ × ℕ) (sweepCell nz nx gd)
    (fun a c => sweepCell_ptwiseLe nz nx gd a c) (cells nz nx) l

lemma limgrad_ptwiseLe (nz nx : ℕ) (elen grade : ℚ) (imax : ℕ) (l : List ℚ) :
    ptwiseLe (limgrad nz nx elen grade imax l) l := by
  induction imax generalizing l with
  | zero => exact ptwiseLe_refl l
  | succ m ih =>
    rw [limgrad]
    by_cases h : sweepOnce nz nx (grade * elen) l = l
    · rw [if_pos h]; exact ptwiseLe_refl l
    · rw [if_neg h]
      exact ptwiseLe_trans (ih _) (sweepOnce_ptwiseLe nz nx (grade * elen) l)

lemma sweepOnce_fixed_gradBounded (nz nx : ℕ) (gd : ℚ) (l : List ℚ)
    (hlen : l.length = nz * nx) (hfix : sweepOnce nz nx gd l = l) :
    GradBounded nz nx gd l := by
  intro p q hadj
  have hqb := adj_bounds hadj
  obtain ⟨hp1, hp2, hq⟩ := hadj
  have hcell : sweepCell nz nx gd l p = l :=
    @foldl_eq_self (ℕ × ℕ) (sweepCell nz nx gd)
      (fun a c => sweepCell_ptwiseLe nz nx gd a c) (cells nz nx) l hfix
      p (mem_cells_iff.mpr ⟨hp1, hp2⟩)
  have hstep : gdStep gd (idx nz p.1 p.2) l (idx nz q.1 q.2) = l :=
    @foldl_eq_self (ℕ × ℕ) (fun b r => gdStep gd (idx nz p.1 p.2) b (idx nz r.1 r.2))
      (fun b r => gdStep_ptwiseLe gd (idx nz p.1 p.2) (idx nz r.1 r.2) b)
      (nbrs nz nx p.1 p.2) l hcell q hq
  have hidx : idx nz q.1 q.2 < l.length := by
    rw [hlen]; exact idx_lt hqb.1 hqb.2
  have h2 : (l.set (idx nz q.1 q.2)
      (min (l.getD (idx nz q.1 q.2) 0) (l.getD (idx nz p.1 p.2) 0 + gd))).getD
        (idx nz q.1 q.2) 0 = l.getD (idx nz q.1 q.2) 0 := by
    rw [show l.set (idx nz q.1 q.2)
        (min (l.getD (idx nz q.1 q.2) 0) (l.getD (idx nz p.1 p.2) 0 + gd)) = l from hstep]
  rw [getD_set_self _ _ _ hidx] at h2
  rw [← h2]
  exact min_le_right _ _

lemma gdStep_preserve_le {nz nx : ℕ} (gd : ℚ) {u a : List ℚ} (p q : ℕ × ℕ)
    (hadj : Adj nz nx p q)
    (hu : u.getD (idx nz q.1 q.2) 0 ≤ u.getD (idx nz p.1 p.2) 0 + gd)
    (hle : ptwiseLe u a) :
    ptwiseLe u (gdStep gd (idx nz p.1 p.2) a (idx nz q.1 q.2)) := by
  constructor
  · rw [hle.1]; simp [gdStep]
  · intro m
    by_cases hm : idx nz q.1 q.2 = m
    · subst hm
      by_cases hn : idx nz q.1 q.2 < a.length
      · rw [gdStep, getD_set_self _ _ _ hn]
        refine le_min (hle.2 _) (le_trans hu ?_)
        have := hle.2 (idx nz p.1 p.2)
        linarith
      · rw [gdStep, List.set_eq_of_length_le (by omega)]
        exact hle.2 _
    · rw [gdStep, getD_set_ne _ _ _ _ hm]
      exact hle.2 m

lemma sweepCell_preserve_le {nz nx : ℕ} (gd : ℚ) {u : List ℚ}
    (hub : GradBounded nz nx gd u) (c : ℕ × ℕ) (hc1 : c.1 < nz) (hc2 : c.2 < nx) :
    ∀ a, ptwiseLe u a → ptwiseLe u (sweepCell nz nx gd a c) :=
  @foldl_preserve (ℕ × ℕ) (fun b => ptwiseLe u b)
    (fun b q => gdStep gd (idx nz c.1 c.2) b (idx nz q.1 q.2))
    (nbrs nz nx c.1 c.2)
    (fun b q hq hb =>
      gdStep_preserve_le gd c q ⟨hc1, hc2, hq⟩ (hub c q ⟨hc1, hc2, hq⟩) hb)

lemma sweepOnce_preserve_le {nz nx : ℕ} (gd : ℚ) {u : List ℚ}
    (hub : GradBounded nz nx gd u) :
    ∀ l, ptwiseLe u l → ptwiseLe u (sweepOnce nz nx gd l) :=
  @foldl_preserve (ℕ × ℕ) (fun b => ptwiseLe u b) (sweepCell nz nx gd) (cells nz nx)
    (fun a c hc ha =>
      sweepCell_preserve_le gd hub c (mem_cells_iff.mp hc).1 (mem_cells_iff.mp hc).2 a ha)

lemma limgrad_preserve_le {nz nx : ℕ} (elen grade : ℚ) {u : List ℚ}
    (hub : GradBounded nz nx (grade * elen) u) (imax : ℕ) :
    ∀ l, ptwiseLe u l → ptwiseLe u (limgrad nz nx elen grade imax l) := by
  induction imax with
  | zero => intro l hl; exact hl
  | succ m ih =>
    intro l hl
    rw [limgrad]
    by_cases h : sweepOnce nz nx (grade * elen) l = l
    · rw [if_pos h]; exact hl
    · rw [if_neg h]
      exact ih _ (sweepOnce_preserve_le (grade * elen) hub l hl)

lemma limgrad_of_fixed {nz nx : ℕ} {elen grade : ℚ} {l : List ℚ} (imax : ℕ)
    (h : sweepOnce nz nx (grade * elen) l = l) :
    limgrad nz nx elen grade imax l = l := by
  cases imax with
  | zero => rfl
  | succ m => rw [limgrad]; simp [h]

/-! ### Claim C1 -/

/-- Claim C1, corrected: the gradient-limiting operation returns the
pointwise-MAXIMAL field `h' ≤ h` obeying the neighbour bound
`|h'(a) - h'(b)| ≤ g·Δ`, provided the sweep reaches its fixed point within
`maxIterations`; in particular it never raises any value, and any field
below `h` that obeys the bound is pointwise below the result. -/
theorem limgrad_pointwise_maximal (nz nx : ℕ) (elen grade : ℚ) (imax : ℕ)
    (l : List ℚ) (hgrade : 0 < grade) (hlen : l.length = nz * nx)
    (hconv : sweepOnce nz nx (grade * elen) (limgrad nz nx elen grade imax l) =
      limgrad nz nx elen grade imax l) :
    ptwiseLe (limgrad nz nx elen grade imax l) l ∧
    (∀ p q, Adj nz nx p q →
      |(limgrad nz nx elen grade imax l).getD (idx nz p.1 p.2) 0 -
        (limgrad nz nx elen grade imax l).getD (idx nz q.1 q.2) 0| ≤ grade * elen) ∧
    (∀ u, GradBounded nz nx (grade * elen) u → ptwiseLe u l →
      ptwiseLe u (limgrad nz nx elen grade imax l)) := by
  have hle := limgrad_ptwiseLe nz nx elen grade imax l
  have hlen2 : (limgrad nz nx elen grade imax l).length = nz * nx := by
    rw [hle.1, hlen]
  have hgb := sweepOnce_fixed_gradBounded nz nx (grade * elen)
    (limgrad nz nx elen grade imax l) hlen2 hconv
  refine ⟨hle, ?_, ?_⟩
  · intro p q hadj
    have h1 := hgb p q hadj
    have h2 := hgb q p (adj_symm hadj)
    rw [abs_sub_le_iff]
    constructor <;> linarith
  · intro u hub hul
    exact limgrad_preserve_le elen grade hub imax l hul

/-- Claim C1, counterexample to the claim as stated: on the one-cell field
`[5]` with `g = Δ = 1` the limiter returns `[5]`, yet `[4]` also lies below
the input and satisfies the (vacuous) gradient bound, so the returned field
is not the pointwise-MINIMAL admissible field below the input. -/
theorem limgrad_not_pointwise_minimal :
    ¬ (ptwiseLe (limgrad 1 1 1 1 10000 [5]) [5] ∧
       (∀ p q, Adj 1 1 p q →
         |(limgrad 1 1 1 1 10000 [5]).getD (idx 1 p.1 p.2) 0 -
           (limgrad 1 1 1 1 10000 [5]).getD (idx 1 q.1 q.2) 0| ≤ 1 * 1) ∧
       (∀ u, GradBounded 1 1 (1 * 1) u → ptwiseLe u [5] →
         ptwiseLe (limgrad 1 1 1 1 10000 [5]) u)) := by
  intro h
  have h4 : ptwiseLe (limgrad 1 1 1 1 10000 [5]) [4] := by
    apply h.2.2 [4]
    · intro p q hadj
      exfalso
      obtain ⟨hp1, hp2, hq⟩ := hadj
      rcases mem_nbrs.mp hq with ⟨_, hb⟩ | ⟨_, hb⟩ | ⟨_, hb⟩ | ⟨_, hb⟩ <;> omega
    · refine ⟨rfl, ?_⟩
      intro k
      rcases k with _ | k
      · show (4 : ℚ) ≤ 5
        norm_num
      · show (0 : ℚ) ≤ 0
        exact le_refl 0
  have hfix : sweepOnce 1 1 (1 * 1) [(5 : ℚ)] = [5] := by
    norm_num [sweepOnce, cells, sweepCell, nbrs, gdStep, idx,
      List.foldl, List.range, List.range.loop]
  have h5 : (limgrad 1 1 1 1 10000 [5]).getD 0 0 = 5 := by
    rw [limgrad_of_fixed 10000 hfix]
    rfl
  have h6 := h4.2 0
  rw [h5] at h6
  have : ¬ ((5 : ℚ) ≤ 4) := by norm_num
  exact this h6

/-- Claim C1, witness: the amended theorem applied on the 2×1 grid `[0, 10]`
with `g = Δ = 1`, where the sweep converges (to `[0, 1]`). -/
theorem limgrad_pointwise_maximal_witness :
    0 < (1 : ℚ) ∧ ([(0 : ℚ), 10].length = 2 * 1) ∧
    (sweepOnce 2 1 (1 * 1) (limgrad 2 1 1 1 2 [0, 10]) = limgrad 2 1 1 1 2 [0, 10]) ∧
    (ptwiseLe (limgrad 2 1 1 1 2 [0, 10]) [0, 10] ∧
     (∀ p q, Adj 2 1 p q →
       |(limgrad 2 1 1 1 2 [0, 10]).getD (idx 2 p.1 p.2) 0 -
         (limgrad 2 1 1 1 2 [0, 10]).getD (idx 2 q.1 q.2) 0| ≤ 1 * 1) ∧
     (∀ u, GradBounded 2 1 (1 * 1) u → ptwiseLe u [0, 10] →
       ptwiseLe u (limgrad 2 1 1 1 2 [0, 10]))) :=
  ⟨by norm_num, by rfl, by
    norm_num [limgrad, sweepOnce, cells, sweepCell, nbrs, gdStep, idx,
      List.foldl, List.range, List.range.loop],
   limgrad_pointwise_maximal 2 1 1 1 2 [0, 10] (by norm_num) (by rfl) (by
    norm_num [limgrad, sweepOnce, cells, sweepCell, nbrs, gdStep, idx,
      List.foldl, List.range, List.range.loop])⟩

/-! ### Characterisation of `build()` -/

lemma preGradField_length (s : MSF) (vp : List ℚ) (nz nx : ℕ)
    (hlen : vp.length = nz * nx) :
    (preGradField s vp nz nx).length = nz * nx := by
  unfold preGradField enforceMaxStage enforceMinStage wavelengthStage initField
  cases s.hmax <;> by_cases hwl : 0 < s.wl <;> simp [hwl, hlen]

lemma finalField_length (s : MSF) (vp : List ℚ) (nz nx : ℕ)
    (hlen : vp.length = nz * nx) :
    (finalField s vp nz nx).length = nz * nx := by
  unfold finalField cflStage
  by_cases hdt : 0 < s.dt <;>
    simp [hdt, List.length_zipWith, preGradField_length s vp nz nx hlen, hlen]

lemma buildM_ok_iff (s : MSF) (vp : List ℚ) (nz nx : ℕ) (res : MSF) :
    buildM s vp nz nx = .ok res ↔
      ¬ 0 < s.grade ∧
      (finalField s vp nz nx).all (fun x => decide (0 < x)) = true ∧
      res = buildOkResult s vp nz nx := by
  unfold buildM gradeStage
  by_cases hg : 0 < s.grade
  · rw [if_pos hg, if_neg (by decide : ¬ "_MeshSizeFunction__hj" ∈ msfAttrs)]
    simp [hg]
  · rw [if_neg hg]
    show (if (cflStage s.dt s.cr_max vp (preGradField s vp nz nx)).all
        (fun x => decide (0 < x)) then
        Except.ok (buildOkResult s vp nz nx)
      else Except.error PyError.assertionError) = Except.ok res ↔ _
    by_cases hall : (cflStage s.dt s.cr_max vp (preGradField s vp nz nx)).all
        (fun x => decide (0 < x)) = true
    · rw [if_pos hall]
      simp [hg, finalField, hall, eq_comm]
    · rw [if_neg hall]
      simp [hg, finalField, hall]

lemma buildM_ok_not_grade {s : MSF} {vp : List ℚ} {nz nx : ℕ} {res : MSF}
    (h : buildM s vp nz nx = .ok res) : ¬ 0 < s.grade :=
  ((buildM_ok_iff s vp nz nx res).mp h).1

/-! ### Concrete configurations used by witnesses and counterexamples -/

/-- The uniform scenario configuration: bbox `(-1000, 0, 0, 1000)`,
`hmin = 100`, every optional constraint disabled. -/
def cfgU : MSF :=
  ⟨[-1000, 0, 0, 1000], 100, "testing.segy", 0, 5, none, 0, 1/5, 0,
   none, none, none, none, none⟩

/-- `cfgU` with gradation enabled (`grade = 5`). -/
def cfgG : MSF :=
  ⟨[-1000, 0, 0, 1000], 100, "testing.segy", 0, 5, none, 0, 1/5, 5,
   none, none, none, none, none⟩

/-- `cfgU` with a finite `hmax = 50` below `hmin = 100`. -/
def cfgM : MSF :=
  ⟨[-1000, 0, 0, 1000], 100, "testing.segy", 0, 5, some 50, 0, 1/5, 0,
   none, none, none, none, none⟩

/-- `cfgU` with the wavelength criterion enabled (`wl = 5`, `freq = 5`). -/
def cfgW : MSF :=
  ⟨[-1000, 0, 0, 1000], 100, "testing.segy", 5, 5, none, 0, 1/5, 0,
   none, none, none, none, none⟩

/-! ### Claim C9 -/

/-- Claim C9: whenever `grade > 0`, `build()` raises `AttributeError` at the
gradation stage and returns no field: the stage resolves the mangled name
`_MeshSizeFunction__hj`, which is not an attribute of the class, while the
wrapper is bound under the plain name `hj`. -/
theorem build_grade_attribute_error (s : MSF) (vp : List ℚ) (nz nx : ℕ)
    (hg : 0 < s.grade) :
    buildM s vp nz nx = .error .attributeError ∧
    "hj" ∈ msfAttrs ∧ "_MeshSizeFunction__hj" ∉ msfAttrs := by
  refine ⟨?_, by decide, by decide⟩
  unfold buildM gradeStage
  rw [if_pos hg, if_neg (by decide : ¬ "_MeshSizeFunction__hj" ∈ msfAttrs)]

/-- Claim C9, witness: the configuration `cfgG` with `grade = 5` on a 1×1
velocity grid. -/
theorem build_grade_attribute_error_witness :
    0 < cfgG.grade ∧
    (buildM cfgG [2000] 1 1 = .error .attributeError ∧
     "hj" ∈ msfAttrs ∧ "_MeshSizeFunction__hj" ∉ msfAttrs) :=
  ⟨by norm_num [cfgG], build_grade_attribute_error cfgG [2000] 1 1 (by norm_num [cfgG])⟩

/-! ### Claim C10 -/

/-- Claim C10: on every configuration on which `build()` returns, the result
is the receiver with exactly `vp`, `nz`, `nx`, `fh`, `fd` populated, and
every configuration field (`bbox`, `hmin`, `segy`, `wl`, `freq`, `hmax`,
`dt`, `cr_max`, `grade`) unchanged. -/
theorem build_frame (s : MSF) (vp : List ℚ) (nz nx : ℕ) (res : MSF)
    (h : buildM s vp nz nx = .ok res) :
    res.bbox = s.bbox ∧ res.hmin = s.hmin ∧ res.segy = s.segy ∧
    res.wl = s.wl ∧ res.freq = s.freq ∧ res.hmax = s.hmax ∧ res.dt = s.dt ∧
    res.cr_max = s.cr_max ∧ res.grade = s.grade ∧
    res.vp = some vp ∧ res.nz = some nz ∧ res.nx = some nx ∧
    res.fh = some ⟨(createDomainVectors s.bbox nz nx).1,
                   (createDomainVectors s.bbox nz nx).2,
                   finalField s vp nz nx⟩ ∧
    res.fd = some ⟨s.bbox.getD 0 0, s.bbox.getD 1 0,
                   s.bbox.getD 2 0, s.bbox.getD 3 0⟩ := by
  obtain ⟨-, -, rfl⟩ := (buildM_ok_iff s vp nz nx res).mp h
  exact ⟨rfl, rfl, rfl, rfl, rfl, rfl, rfl, rfl, rfl, rfl, rfl, rfl, rfl, rfl⟩

lemma finalField_cfgU (nz nx : ℕ) :
    finalField cfgU (List.replicate (nz * nx) 2000) nz nx =
      List.replicate (nz * nx) 100 := by
  norm_num [finalField, cflStage, preGradField, enforceMaxStage, enforceMinStage,
    wavelengthStage, initField, cfgU, List.map_replicate]

lemma buildM_cfgU (nz nx : ℕ) :
    buildM cfgU (List.replicate (nz * nx) 2000) nz nx =
      .ok (buildOkResult cfgU (List.replicate (nz * nx) 2000) nz nx) := by
  rw [buildM_ok_iff]
  refine ⟨by norm_num [cfgU], ?_, rfl⟩
  rw [finalField_cfgU]
  norm_num [List.all_eq_true, List.mem_replicate]

/-- Claim C10, witness: the uniform configuration on a 1×1 grid, where
`build()` succeeds. -/
theorem build_frame_witness :
    buildM cfgU (List.replicate (1 * 1) 2000) 1 1 =
      .ok (buildOkResult cfgU (List.replicate (1 * 1) 2000) 1 1) ∧
    ((buildOkResult cfgU (List.replicate (1 * 1) 2000) 1 1).bbox = cfgU.bbox ∧
     (buildOkResult cfgU (List.replicate (1 * 1) 2000) 1 1).hmin = cfgU.hmin ∧
     (buildOkResult cfgU (List.replicate (1 * 1) 2000) 1 1).segy = cfgU.segy ∧
     (buildOkResult cfgU (List.replicate (1 * 1) 2000) 1 1).wl = cfgU.wl ∧
     (buildOkResult cfgU (List.replicate (1 * 1) 2000) 1 1).freq = cfgU.freq ∧
     (buildOkResult cfgU (List.replicate (1 * 1) 2000) 1 1).hmax = cfgU.hmax ∧
     (buildOkResult cfgU (List.replicate (1 * 1) 2000) 1 1).dt = cfgU.dt ∧
     (buildOkResult cfgU (List.replicate (1 * 1) 2000) 1 1).cr_max = cfgU.cr_max ∧
     (buildOkResult cfgU (List.replicate (1 * 1) 2000) 1 1).grade = cfgU.grade ∧
     (buildOkResult cfgU (List.replicate (1 * 1) 2000) 1 1).vp =
       some (List.replicate (1 * 1) 2000) ∧
     (buildOkResult cfgU (List.replicate (1 * 1) 2000) 1 1).nz = some 1 ∧
     (buildOkResult cfgU (List.replicate (1 * 1) 2000) 1 1).nx = some 1 ∧
     (buildOkResult cfgU (List.replicate (1 * 1) 2000) 1 1).fh =
       some ⟨(createDomainVectors cfgU.bbox 1 1).1,
             (createDomainVectors cfgU.bbox 1 1).2,
             finalField cfgU (List.replicate (1 * 1) 2000) 1 1⟩ ∧
     (buildOkResult cfgU (List.replicate (1 * 1) 2000) 1 1).fd =
       some ⟨cfgU.bbox.getD 0 0, cfgU.bbox.getD 1 0,
             cfgU.bbox.getD 2 0, cfgU.bbox.getD 3 0⟩) :=
  ⟨buildM_cfgU 1 1,
   build_frame cfgU (List.replicate (1 * 1) 2000) 1 1
     (buildOkResult cfgU (List.replicate (1 * 1) 2000) 1 1) (buildM_cfgU 1 1)⟩

/-! ### Claim C8 -/

/-- Claim C8: with bounding box `(-1000, 0, 0, 1000)`, a uniform 2000 m/s
velocity grid, `hmin = 100`, and wavelength, hmax, CFL and gradation all
disabled, `build()` succeeds and the sizing field stored in the interpolant
is uniformly 100. -/
theorem build_uniform_hmin (nz nx : ℕ) :
    ∃ res, buildM cfgU (List.replicate (nz * nx) 2000) nz nx = .ok res ∧
      ∀ d, res.fh = some d → d.hh = List.replicate (nz * nx) 100 := by
  refine ⟨buildOkResult cfgU (List.replicate (nz * nx) 2000) nz nx,
    buildM_cfgU nz nx, ?_⟩
  intro d hd
  rw [buildOkResult] at hd
  simp only [Option.some.injEq] at hd
  rw [← hd, finalField_cfgU]

/-! ### Claim C4 and the pre-gradation bounds -/

lemma wavelength_getD (s : MSF) (vp : List ℚ) (nz nx k : ℕ)
    (hk : k < nz * nx) (hlen : vp.length = nz * nx) :
    (wavelengthStage s.wl s.freq vp (initField nz nx s.hmin)).getD k 0 =
      (if 0 < s.wl then vp.getD k 0 / (s.freq * s.wl) else s.hmin) := by
  unfold wavelengthStage initField
  by_cases hwl : 0 < s.wl
  · rw [if_pos hwl, if_pos hwl, getD_map_lt _ _ _ (by omega)]
  · rw [if_neg hwl, if_neg hwl, getD_replicate_lt _ _ _ hk]

lemma wavelength_length (s : MSF) (vp : List ℚ) (nz nx : ℕ)
    (hlen : vp.length = nz * nx) :
    (wavelengthStage s.wl s.freq vp (initField nz nx s.hmin)).length = nz * nx := by
  unfold wavelengthStage initField
  by_cases hwl : 0 < s.wl <;> simp [hwl, hlen]

lemma preGrad_getD (s : MSF) (vp : List ℚ) (nz nx k : ℕ)
    (hk : k < nz * nx) (hlen : vp.length = nz * nx) :
    (preGradField s vp nz nx).getD k 0 =
      clampSpec s.hmin s.hmax
        (if 0 < s.wl then vp.getD k 0 / (s.freq * s.wl) else s.hmin) := by
  have hwlen := wavelength_length s vp nz nx hlen
  have hw := wavelength_getD s vp nz nx k hk hlen
  unfold preGradField enforceMaxStage enforceMinStage clampSpec
  cases hmx : s.hmax with
  | none =>
    rw [getD_map_lt _ _ _ (by omega), hw]
  | some m =>
    rw [getD_map_lt _ _ _ (by simp [hwlen]; omega),
      getD_map_lt _ _ _ (by omega), hw]

lemma clampSpec_bounds (hmin : ℚ) (hmax : Option ℚ) (raw : ℚ)
    (hmm : ∀ m, hmax = some m → hmin ≤ m) :
    hmin ≤ clampSpec hmin hmax raw ∧
      ∀ m, hmax = some m → clampSpec hmin hmax raw ≤ m := by
  unfold clampSpec
  have ha : hmin ≤ (if raw < hmin then hmin else raw) := by
    by_cases h : raw < hmin
    · rw [if_pos h]
    · rw [if_neg h]; linarith [not_lt.mp h]
  cases hmx : hmax with
  | none => exact ⟨ha, by simp⟩
  | some m =>
    constructor
    · show hmin ≤ (if m < (if raw < hmin then hmin else raw) then m
        else (if raw < hmin then hmin else raw))
      by_cases h : m < (if raw < hmin then hmin else raw)
      · rw [if_pos h]; exact hmm m hmx
      · rw [if_neg h]; exact ha
    · intro m2 hm2
      injection hm2 with h2
      subst h2
      show (if m < (if raw < hmin then hmin else raw) then m
        else (if raw < hmin then hmin else raw)) ≤ m
      by_cases h : m < (if raw < hmin then hmin else raw)
      · rw [if_pos h]
      · rw [if_neg h]; exact not_lt.mp h

/-- Claim C4: in `build()`, before the gradation and CFL stages, every cell
equals the sequential clamp of the raw size: raise values below `hmin` to
`hmin`, then (only when `hmax` is finite) lower values above `hmax` to
`hmax`, where the raw size is `velocity/(freq·wl)` when `wl > 0` and `hmin`
otherwise. -/
theorem build_preGrad_clamp (s : MSF) (vp : List ℚ) (nz nx k : ℕ)
    (hk : k < nz * nx) (hlen : vp.length = nz * nx) :
    (preGradField s vp nz nx).getD k 0 =
      clampSpec s.hmin s.hmax
        (if 0 < s.wl then vp.getD k 0 / (s.freq * s.wl) else s.hmin) :=
  preGrad_getD s vp nz nx k hk hlen

/-- Claim C4, witness: the wavelength configuration `cfgW` on a 1×1 grid
with velocity 2000. -/
theorem build_preGrad_clamp_witness :
    (0 < 1 * 1) ∧ ([(2000 : ℚ)].length = 1 * 1) ∧
    (preGradField cfgW [2000] 1 1).getD 0 0 =
      clampSpec cfgW.hmin cfgW.hmax
        (if 0 < cfgW.wl then [(2000 : ℚ)].getD 0 0 / (cfgW.freq * cfgW.wl)
         else cfgW.hmin) :=
  ⟨by decide, by rfl, build_preGrad_clamp cfgW [2000] 1 1 0 (by decide) (by rfl)⟩

/-! ### Claim C2 -/

lemma finalField_untriggered (s : MSF) (vp : List ℚ) (nz nx k : ℕ)
    (hlen : vp.length = nz * nx) (hk : k < nz * nx)
    (hnt : ¬ cflTriggered s vp nz nx k) :
    (finalField s vp nz nx).getD k 0 = (preGradField s vp nz nx).getD k 0 := by
  unfold finalField cflStage
  by_cases hdt : 0 < s.dt
  · rw [if_pos hdt,
      getD_zipWith _ _ _ _ (by omega) (by rw [preGradField_length s vp nz nx hlen]; omega)]
    have hc : ¬ s.cr_max < vp.getD k 0 * s.dt / (preGradField s vp nz nx).getD k 0 :=
      fun hc => hnt ⟨hdt, hc⟩
    rw [if_neg hc]
  · rw [if_neg hdt]

/-- Claim C2, amended: for every configuration on which `build()` returns
and whose finite `hmax` (when present) is at least `hmin`, every cell of the
produced field whose CFL adjustment was not triggered satisfies
`hmin ≤ h[k]`, and (gradation never having run in a completed build)
`h[k] ≤ hmax` whenever `hmax` is finite. -/
theorem build_bounds (s : MSF) (vp : List ℚ) (nz nx : ℕ) (res : MSF)
    (hok : buildM s vp nz nx = .ok res)
    (hmm : ∀ m, s.hmax = some m → s.hmin ≤ m)
    (hlen : vp.length = nz * nx) (k : ℕ) (hk : k < nz * nx)
    (hnt : ¬ cflTriggered s vp nz nx k) :
    ∀ d, res.fh = some d →
      s.hmin ≤ d.hh.getD k 0 ∧ ∀ m, s.hmax = some m → d.hh.getD k 0 ≤ m := by
  obtain ⟨-, -, rfl⟩ := (buildM_ok_iff s vp nz nx res).mp hok
  intro d hd
  rw [buildOkResult] at hd
  simp only [Option.some.injEq] at hd
  rw [← hd]
  show s.hmin ≤ (finalField s vp nz nx).getD k 0 ∧
    ∀ m, s.hmax = some m → (finalField s vp nz nx).getD k 0 ≤ m
  rw [finalField_untriggered s vp nz nx k hlen hk hnt,
    preGrad_getD s vp nz nx k hk hlen]
  exact clampSpec_bounds s.hmin s.hmax _ hmm

/-- Claim C2, counterexample to the claim as stated: with the valid
configuration `cfgM` (`hmin = 100`, finite `hmax = 50 < hmin`, CFL and
gradation disabled) `build()` succeeds, the CFL adjustment is not triggered
at cell 0, yet the produced field holds 50 < hmin there. -/
theorem build_bounds_counterexample :
    buildM cfgM [2000] 1 1 = .ok (buildOkResult cfgM [2000] 1 1) ∧
    (∀ d, (buildOkResult cfgM [2000] 1 1).fh = some d → d.hh.getD 0 0 = 50) ∧
    ¬ cflTriggered cfgM [2000] 1 1 0 ∧
    (50 : ℚ) < cfgM.hmin := by
  have hff : finalField cfgM [2000] 1 1 = [50] := by
    norm_num [finalField, cflStage, preGradField, enforceMaxStage, enforceMinStage,
      wavelengthStage, initField, cfgM, List.map_replicate, List.replicate]
  refine ⟨?_, ?_, ?_, by norm_num [cfgM]⟩
  · rw [buildM_ok_iff]
    refine ⟨by norm_num [cfgM], ?_, rfl⟩
    rw [hff]
    norm_num [List.all_eq_true]
  · intro d hd
    rw [buildOkResult] at hd
    simp only [Option.some.injEq] at hd
    rw [← hd]
    show (finalField cfgM [2000] 1 1).getD 0 0 = 50
    rw [hff]
    rfl
  · intro h
    rw [cflTriggered] at h
    norm_num [cfgM] at h

/-- Claim C2, witness: the amended theorem at the uniform configuration
`cfgU` on a 1×1 grid, cell 0. -/
theorem build_bounds_witness :
    buildM cfgU (List.replicate (1 * 1) 2000) 1 1 =
      .ok (buildOkResult cfgU (List.replicate (1 * 1) 2000) 1 1) ∧
    (∀ m, cfgU.hmax = some m → cfgU.hmin ≤ m) ∧
    (List.replicate (1 * 1) (2000 : ℚ)).length = 1 * 1 ∧
    0 < 1 * 1 ∧
    ¬ cflTriggered cfgU (List.replicate (1 * 1) 2000) 1 1 0 ∧
    (∀ d, (buildOkResult cfgU (List.replicate (1 * 1) 2000) 1 1).fh = some d →
      cfgU.hmin ≤ d.hh.getD 0 0 ∧
      ∀ m, cfgU.hmax = some m → d.hh.getD 0 0 ≤ m) :=
  ⟨buildM_cfgU 1 1,
   by intro m hm; simp [cfgU] at hm,
   by rfl, by decide,
   by intro h; rw [cflTriggered] at h; norm_num [cfgU] at h,
   build_bounds cfgU (List.replicate (1 * 1) 2000) 1 1
     (buildOkResult cfgU (List.replicate (1 * 1) 2000) 1 1) (buildM_cfgU 1 1)
     (by intro m hm; simp [cfgU] at hm) (by rfl) 0 (by decide)
     (by intro h; rw [cflTriggered] at h; norm_num [cfgU] at h)⟩

/-! ### Claim C3 -/

lemma getD_mem (l : List ℚ) (k : ℕ) (h : k < l.length) : l.getD k 0 ∈ l := by
  rw [List.getD_eq_getElem?_getD, List.getElem?_eq_getElem h]
  exact List.getElem_mem h

/-- Claim C3, amended: when `dt > 0`, `cr_max > 0` and the incoming field is
strictly positive (as it is in every build that completes), the CFL stage
replaces `h[k]` with `v[k]·dt/cr_max` exactly at the cells where
`v[k]·dt/h[k] > cr_max` and leaves the other cells unchanged; every
replacement strictly increases the value, and afterwards every cell
satisfies `v[k]·dt/h[k] ≤ cr_max`. -/
theorem cfl_stage_spec (dt cr_max : ℚ) (vp hh : List ℚ) (k : ℕ)
    (hdt : 0 < dt) (hcr : 0 < cr_max)
    (hpos : ∀ x ∈ hh, 0 < x) (hlen : vp.length = hh.length) (hk : k < hh.length) :
    ((cflStage dt cr_max vp hh).getD k 0 =
      if cr_max < vp.getD k 0 * dt / hh.getD k 0 then vp.getD k 0 * dt / cr_max
      else hh.getD k 0) ∧
    (cr_max < vp.getD k 0 * dt / hh.getD k 0 →
      hh.getD k 0 < (cflStage dt cr_max vp hh).getD k 0) ∧
    vp.getD k 0 * dt / (cflStage dt cr_max vp hh).getD k 0 ≤ cr_max := by
  have hh0 : 0 < hh.getD k 0 := hpos _ (getD_mem hh k hk)
  have hget : (cflStage dt cr_max vp hh).getD k 0 =
      if cr_max < vp.getD k 0 * dt / hh.getD k 0 then vp.getD k 0 * dt / cr_max
      else hh.getD k 0 := by
    unfold cflStage
    rw [if_pos hdt, getD_zipWith _ _ _ _ (by omega) hk]
  refine ⟨hget, ?_, ?_⟩
  · intro htr
    rw [hget, if_pos htr]
    have h1 : cr_max * hh.getD k 0 < vp.getD k 0 * dt := (lt_div_iff₀ hh0).mp htr
    refine (lt_div_iff₀ hcr).mpr ?_
    rw [mul_comm]
    exact h1
  · rw [hget]
    by_cases htr : cr_max < vp.getD k 0 * dt / hh.getD k 0
    · rw [if_pos htr]
      have h1 : cr_max * hh.getD k 0 < vp.getD k 0 * dt := (lt_div_iff₀ hh0).mp htr
      have h2 : 0 < vp.getD k 0 * dt := lt_trans (mul_pos hcr hh0) h1
      rw [div_div_eq_mul_div, mul_comm (vp.getD k 0 * dt) cr_max, mul_div_assoc,
        div_self (ne_of_gt h2), mul_one]
    · rw [if_neg htr]
      exact not_lt.mp htr

/-- Claim C3, counterexample to the claim as stated: with `dt = 1` and the
unvalidated `cr_max = -1`, the replacement at cell 0 is triggered
(`2000·1/100 > -1`) but the new value `2000·1/(-1) = -2000` strictly
DECREASES the cell instead of increasing it. -/
theorem cfl_stage_not_increasing :
    cflStage 1 (-1) [2000] [100] = [-2000] ∧
    ((-1 : ℚ) < [(2000 : ℚ)].getD 0 0 * 1 / [(100 : ℚ)].getD 0 0) ∧
    (cflStage 1 (-1) [2000] [100]).getD 0 0 < [(100 : ℚ)].getD 0 0 := by
  refine ⟨?_, by norm_num [List.getD], ?_⟩
  · norm_num [cflStage, List.zipWith]
  · norm_num [cflStage, List.zipWith, List.getD]

/-- Claim C3, witness: the amended stage theorem at `dt = 1`,
`cr_max = 1/5`, `vp = [2000]`, `hh = [100]`, cell 0, where the replacement
is triggered and enlarges 100 to 10000. -/
theorem cfl_stage_spec_witness :
    (0 : ℚ) < 1 ∧ (0 : ℚ) < 1/5 ∧ (∀ x ∈ [(100 : ℚ)], 0 < x) ∧
    [(2000 : ℚ)].length = [(100 : ℚ)].length ∧ 0 < [(100 : ℚ)].length ∧
    (((cflStage 1 (1/5) [2000] [100]).getD 0 0 =
       if (1/5 : ℚ) < [(2000 : ℚ)].getD 0 0 * 1 / [(100 : ℚ)].getD 0 0 then
         [(2000 : ℚ)].getD 0 0 * 1 / (1/5)
       else [(100 : ℚ)].getD 0 0) ∧
     ((1/5 : ℚ) < [(2000 : ℚ)].getD 0 0 * 1 / [(100 : ℚ)].getD 0 0 →
       [(100 : ℚ)].getD 0 0 < (cflStage 1 (1/5) [2000] [100]).getD 0 0) ∧
     [(2000 : ℚ)].getD 0 0 * 1 / (cflStage 1 (1/5) [2000] [100]).getD 0 0 ≤ 1/5) :=
  ⟨by norm_num, by norm_num, by intro x hx; rw [List.mem_singleton] at hx; rw [hx]; norm_num,
   by rfl, by decide,
   cfl_stage_spec 1 (1/5) [2000] [100] 0 (by norm_num) (by norm_num)
     (by intro x hx; rw [List.mem_singleton] at hx; rw [hx]; norm_num) (by rfl) (by decide)⟩

/-! ### Claim C5 -/

lemma not_pyLt_zero (x : PyFloat) :
    ¬ pyLt (.fin 0) x = true ↔
      (x = .nan ∨ x = .ninf ∨ ∃ q, x = .fin q ∧ q ≤ 0) := by
  cases x with
  | fin q => simp [pyLt, not_lt]
  | inf => simp [pyLt]
  | ninf => simp [pyLt]
  | nan => simp [pyLt]

/-- Claim C5, amended: when the gradation stage does not abort the build
(`grade ≤ 0`), `build()` fails with the fatal assertion exactly when the
constructed field contains a value that is not strictly greater than zero -
a non-positive finite value, negative infinity, or NaN; positive infinity
passes the check `np.all(hh_m > 0.0)`.  On failure the error return carries
no field, interpolant, or distance function, and no further clamping is
applied. -/
theorem buildF_assert_iff (hmin wl freq : ℚ) (hmax : PyFloat)
    (dt cr_max grade : ℚ) (vp : List ℚ) (nz nx : ℕ) (hg : ¬ 0 < grade) :
    buildF hmin wl freq hmax dt cr_max grade vp nz nx = .error .assertionError ↔
      ∃ x ∈ finalFieldF hmin wl freq hmax dt cr_max vp nz nx,
        x = .nan ∨ x = .ninf ∨ ∃ q, x = .fin q ∧ q ≤ 0 := by
  unfold buildF
  rw [if_neg hg]
  by_cases hall : (finalFieldF hmin wl freq hmax dt cr_max vp nz nx).all
      (fun x => pyLt (.fin 0) x) = true
  · rw [if_pos hall]
    constructor
    · intro h
      exact absurd h (by simp)
    · rintro ⟨x, hx, hbad⟩
      exact absurd ((List.all_eq_true.mp hall) x hx) ((not_pyLt_zero x).mpr hbad)
  · rw [if_neg hall]
    constructor
    · intro _
      rw [List.all_eq_true] at hall
      push_neg at hall
      obtain ⟨x, hx, hbad⟩ := hall
      exact ⟨x, hx, (not_pyLt_zero x).mp hbad⟩
    · intro _
      rfl

/-- Claim C5, counterexample to the claim as stated: with `wl = 5` but
`freq = 0` (accepted without validation) on a uniform 2000 m/s 1×1 grid,
the wavelength stage divides by zero and produces `inf`; `inf > 0` holds,
so the assertion passes and `build()` returns a field containing a
non-finite value instead of failing. -/
theorem buildF_inf_passes :
    buildF 100 5 0 .inf 0 (1/5) 0 [2000] 1 1 = .ok [.inf] ∧
    PyFloat.isFinite .inf = false := by
  constructor
  · norm_num [buildF, finalFieldF, pyDiv, pyLt, List.zipWith, List.replicate]
  · rfl

/-- Claim C5, witness: the amended equivalence at the counterexample
configuration, where the field is `[inf]` and neither side holds. -/
theorem buildF_assert_iff_witness :
    ¬ (0 : ℚ) < 0 ∧
    (buildF 100 5 0 .inf 0 (1/5) 0 [2000] 1 1 = .error .assertionError ↔
      ∃ x ∈ finalFieldF 100 5 0 .inf 0 (1/5) [2000] 1 1,
        x = .nan ∨ x = .ninf ∨ ∃ q, x = .fin q ∧ q ≤ 0) :=
  ⟨by norm_num, buildF_assert_iff 100 5 0 .inf 0 (1/5) 0 [2000] 1 1 (by norm_num)⟩

/-! ### Claim C6 -/

/-- Claim C6, code bug: the distance closure installed by `build()` raises
`AttributeError` on every call (the lambda resolves `self.drectangle`, which
is not an attribute of the class), although the underlying `__drectangle`
formula does return a negative value strictly inside the box and a positive
value strictly outside, as the claim describes. -/
theorem fd_call_attribute_error :
    callFd ⟨-1000, 0, 0, 1000⟩ (-500, 500) = .error .attributeError ∧
    "drectangle" ∉ msfAttrs ∧
    drectangle (-500, 500) (-1000) 0 0 1000 < 0 ∧
    0 < drectangle (500, 500) (-1000) 0 0 1000 := by
  refine ⟨?_, by decide, ?_, ?_⟩
  · rw [callFd, if_neg (by decide : ¬ "drectangle" ∈ msfAttrs)]
  · norm_num [drectangle, min_def]
  · norm_num [drectangle, min_def]

/-! ### Claim C7 -/

/-- Claim C7: constructing a `MeshSizeFunction` succeeds exactly when the
bounding box has between 4 and 6 values, `hmin` is strictly positive, and
the segy reference is a string; each of the three setter assertions fails
eagerly at configuration time, and no other configuration value is
validated. -/
theorem mk_validation (bbox : List ℚ) (hmin : ℚ) (segy : PyValue)
    (wl freq : ℚ) (hmax : Option ℚ) (dt cr_max grade : ℚ) :
    (∃ s, mkMeshSizeFunction bbox hmin segy wl freq hmax dt cr_max grade = .ok s) ↔
      (4 ≤ bbox.length ∧ bbox.length ≤ 6 ∧ 0 < hmin ∧ segy.isStr = true) := by
  unfold mkMeshSizeFunction
  by_cases h1 : 4 ≤ bbox.length ∧ bbox.length ≤ 6
  · rw [if_pos h1]
    by_cases h2 : 0 < hmin
    · rw [if_pos h2]
      cases segy <;> simp [PyValue.isStr, h1.1, h1.2, h2]
    · rw [if_neg h2]
      simp [h2]
  · rw [if_neg h1]
    constructor
    · rintro ⟨s, hs⟩
      cases hs
    · rintro ⟨ha, hb, -⟩
      exact absurd ⟨ha, hb⟩ h1
